import Mathlib

/-!
Verification of the `backoff` library: a stateful exponential-backoff delay
calculator with optional full-range jitter.

Modelling choices (shallow embedding of the Go source):
* `time.Duration` is an `int64` count of nanoseconds; it is modelled as `ℤ`.
  Where the `int64` range matters (the float-to-integer conversion in the
  growth step, and the `+ 1` in the jitter bound) it is handled explicitly
  via `durOfReal` and `wrap64` below.
* `factor` is a Go `float64`; it is modelled as `ℚ` with exact arithmetic.
  The rounding of `float64(b.current)` and of the product to the nearest
  double is not modelled; all concrete inputs used below are exactly
  representable, so the model agrees with the code on them.
* `rand.Int63n` is modelled by `randInt63n`: it panics (here: `none`) when
  its argument is not positive, and otherwise returns an arbitrary value in
  `[0, n)`, represented by an oracle integer reduced modulo `n`.
* The mutex field `mu` serialises calls; single-threaded call sequences,
  which are what the functional claims quantify over, are modelled by
  threading the state explicitly.
-/

namespace Backoff

/-- Truncation toward zero of a rational, as Go's float-to-integer
conversion rounds (toward zero). -/
def truncQ (q : ℚ) : ℤ := if 0 ≤ q then ⌊q⌋ else ⌈q⌉

/-- Smallest `int64` value, `-2^63`. -/
def i64min : ℤ := -(2 ^ 63)

/-- Largest `int64` value, `2^63 - 1`. -/
def i64max : ℤ := 2 ^ 63 - 1

/-- Go's conversion of a (real-valued) `float64` to `int64`, used in
`time.Duration(float64(b.current) * b.factor)`: truncation toward zero when
the truncated value fits in `int64`.  For out-of-range values the Go
language specification leaves the result implementation-dependent; this
models the amd64 behaviour (`CVTTSD2SI`), which yields the indefinite
integer value `-2^63`. -/
def durOfReal (q : ℚ) : ℤ :=
  if truncQ q < i64min ∨ i64max < truncQ q then i64min else truncQ q

/-- Two's-complement wrap-around of `int64` addition, for `b.current + 1`
in the jitter bound. -/
def wrap64 (x : ℤ) : ℤ := (x + 2 ^ 63) % 2 ^ 64 - 2 ^ 63

/-- Model of `math/rand.Int63n n`: panics (`none`) when `n ≤ 0`, otherwise
a fresh uniform draw from `[0, n)`, represented by the caller-supplied
oracle `r` reduced modulo `n`. -/
def randInt63n (n r : ℤ) : Option ℤ :=
  if n ≤ 0 then none else some (r % n)

/-- The `Backoff` struct.  The Go field `initialized` is called `started`
here; the mutex `mu` is not part of the sequential state. -/
structure State where
  initial : ℤ
  factor : ℚ
  max : ℤ
  withJitter : Bool
  current : ℤ
  started : Bool

/-- Functional option, `type Option func(*Backoff)`. -/
def Opt : Type := State → State

/-- `WithJitter(enabled)` sets the `withJitter` field. -/
def WithJitter (enabled : Bool) : Opt :=
  fun b => { b with withJitter := enabled }

/-- `New(initial, factor, max, opts...)`: jitter defaults to true, the
remaining fields to Go zero values; the options are applied in order. -/
def New (initial : ℤ) (factor : ℚ) (max : ℤ) (opts : List Opt) : State :=
  opts.foldl (fun b opt => opt b)
    { initial := initial, factor := factor, max := max,
      withJitter := true, current := 0, started := false }

/-- The state mutation performed by `Next`: on the first call since
construction or reset, `current` becomes `initial`; otherwise `current`
becomes `time.Duration(float64(current) * factor)`, clamped from above by
`max` (`if next > b.max { next = b.max }`). -/
def nextState (b : State) : State :=
  if !b.started then
    { b with current := b.initial, started := true }
  else
    let next := durOfReal ((b.current : ℚ) * b.factor)
    { b with current := if b.max < next then b.max else next }

/-- `Next()`: mutate the state via `nextState`, then return
`rand.Int63n(int64(current + 1))` when jitter is enabled (the `+ 1` wraps
as `int64` addition), and `current` itself otherwise.  The first component
is the returned duration (`none` models a panic inside `rand.Int63n`), the
second the state after the call (the mutation precedes the draw in the
source, so it survives a panic). -/
def Next (b : State) (r : ℤ) : Option ℤ × State :=
  let b1 := nextState b
  if b1.withJitter then
    (randInt63n (wrap64 (b1.current + 1)) r, b1)
  else
    (some b1.current, b1)

/-- `Reset()`: sets the started flag (`initialized`) to false and touches
nothing else. -/
def Reset (b : State) : State := { b with started := false }

/-- Outputs of a sequence of `Next` calls, one per oracle value in `rs`,
threading the state. -/
def runNext (b : State) : List ℤ → List (Option ℤ)
  | [] => []
  | r :: rs => (Next b r).1 :: runNext (Next b r).2 rs

/-- The unjittered value produced by call number `n` (0-indexed) on a
fresh instance with the given parameters: the `current` field after
`n + 1` state transitions. -/
def callSeq (i : ℤ) (f : ℚ) (m : ℤ) (n : ℕ) : ℤ :=
  (nextState^[n + 1] (New i f m [WithJitter false])).current

theorem truncQ_of_nonneg (q : ℚ) (h : 0 ≤ q) : truncQ q = ⌊q⌋ := if_pos h

theorem truncQ_nonneg (q : ℚ) (h : 0 ≤ q) : 0 ≤ truncQ q := by
  rw [truncQ_of_nonneg q h]
  exact Int.floor_nonneg.mpr h

theorem truncQ_le (z : ℤ) (q : ℚ) (h0 : 0 ≤ q) (h : q ≤ (z : ℚ)) : truncQ q ≤ z := by
  rw [truncQ_of_nonneg q h0]
  calc ⌊q⌋ ≤ ⌊(z : ℚ)⌋ := Int.floor_le_floor h
    _ = z := Int.floor_intCast z

theorem i64min_nonpos : i64min ≤ 0 := by norm_num [i64min]

theorem durOfReal_eq (q : ℚ) (h1 : 0 ≤ truncQ q) (h2 : truncQ q ≤ i64max) :
    durOfReal q = truncQ q := by
  unfold durOfReal
  rw [if_neg]
  rintro (h | h)
  · exact absurd h (not_lt.mpr (i64min_nonpos.trans h1))
  · exact absurd h (not_lt.mpr h2)

/-- When the real product lies in `[0, i64max]`, the conversion is just the
floor. -/
theorem durOfReal_of_mem (q : ℚ) (h0 : 0 ≤ q) (h : q ≤ (i64max : ℚ)) :
    durOfReal q = truncQ q :=
  durOfReal_eq q (truncQ_nonneg q h0) (truncQ_le i64max q h0 h)

theorem nextState_initial (b : State) : (nextState b).initial = b.initial := by
  unfold nextState; split <;> rfl

theorem nextState_factor (b : State) : (nextState b).factor = b.factor := by
  unfold nextState; split <;> rfl

theorem nextState_max (b : State) : (nextState b).max = b.max := by
  unfold nextState; split <;> rfl

theorem nextState_withJitter (b : State) : (nextState b).withJitter = b.withJitter := by
  unfold nextState; split <;> rfl

theorem nextState_started (b : State) : (nextState b).started = true := by
  unfold nextState
  split
  · rfl
  · next h =>
    simp only [Bool.not_eq_true', Bool.not_eq_false] at h
    exact h

theorem nextState_current_of_unstarted (b : State) (h : b.started = false) :
    (nextState b).current = b.initial := by
  unfold nextState
  rw [if_pos (by simp [h])]

theorem nextState_current_of_started (b : State) (h : b.started = true) :
    (nextState b).current =
      (let c := durOfReal ((b.current : ℚ) * b.factor);
       if b.max < c then b.max else c) := by
  unfold nextState
  rw [if_neg (by simp [h])]

theorem Next_snd (b : State) (r : ℤ) : (Next b r).2 = nextState b := by
  simp only [Next]
  split <;> rfl

theorem Next_fst_of_not_jitter (b : State) (r : ℤ) (h : b.withJitter = false) :
    (Next b r).1 = some (nextState b).current := by
  simp only [Next]
  rw [if_neg (by simp [nextState_withJitter, h])]

theorem Next_fst_of_jitter (b : State) (r : ℤ) (h : b.withJitter = true) :
    (Next b r).1 = randInt63n (wrap64 ((nextState b).current + 1)) r := by
  simp only [Next]
  rw [if_pos (by simp [nextState_withJitter, h])]

/-! Iterated transitions. -/

theorem iterate_initial (b : State) (n : ℕ) : (nextState^[n] b).initial = b.initial := by
  induction n generalizing b with
  | zero => rfl
  | succ n ih => rw [Function.iterate_succ_apply, ih, nextState_initial]

theorem iterate_withJitter (b : State) (n : ℕ) :
    (nextState^[n] b).withJitter = b.withJitter := by
  induction n generalizing b with
  | zero => rfl
  | succ n ih => rw [Function.iterate_succ_apply, ih, nextState_withJitter]

theorem runNext_length (b : State) (rs : List ℤ) :
    (runNext b rs).length = rs.length := by
  induction rs generalizing b with
  | nil => rfl
  | cons r rs ih => simp [runNext, ih]

/-- The output of call `n` in a run is determined by the state after `n`
calls and the `n`-th oracle value. -/
theorem runNext_getElem (b : State) (rs : List ℤ) (n : ℕ) :
    (runNext b rs)[n]? = (rs[n]?).map (fun r => (Next (nextState^[n] b) r).1) := by
  induction rs generalizing b n with
  | nil => simp [runNext]
  | cons r rs ih =>
    cases n with
    | zero => simp [runNext]
    | succ n =>
      simp only [runNext, List.getElem?_cons_succ, ih, Next_snd,
        Function.iterate_succ_apply]

theorem wrap64_eq_self (x : ℤ) (h1 : i64min ≤ x) (h2 : x ≤ i64max) : wrap64 x = x := by
  unfold wrap64
  unfold i64min at h1
  unfold i64max at h2
  omega

theorem nextState_zero (m : ℤ) (h0m : 0 ≤ m) (b : State)
    (hb : b.initial = 0 ∧ b.current = 0 ∧ b.max = m) :
    (nextState b).initial = 0 ∧ (nextState b).current = 0 ∧ (nextState b).max = m := by
  obtain ⟨hbi, hbc, hbm⟩ := hb
  refine ⟨by rw [nextState_initial, hbi], ?_, by rw [nextState_max, hbm]⟩
  cases hs : b.started with
  | false => rw [nextState_current_of_unstarted b hs, hbi]
  | true =>
    rw [nextState_current_of_started b hs, hbc, hbm]
    have hd : durOfReal ((((0 : ℤ) : ℚ)) * b.factor) = 0 := by
      rw [Int.cast_zero, zero_mul]
      rw [durOfReal_of_mem 0 le_rfl (by norm_num [i64max])]
      unfold truncQ
      rw [if_pos le_rfl, Int.floor_zero]
    simp only [hd]
    rw [if_neg (not_lt.mpr h0m)]

theorem runNext_zero (m : ℤ) (h0m : 0 ≤ m) :
    ∀ (rs : List ℤ) (b : State), b.initial = 0 ∧ b.current = 0 ∧ b.max = m →
      ∀ o ∈ runNext b rs, o = some 0 := by
  intro rs
  induction rs with
  | nil => intro b _ o ho; simp [runNext] at ho
  | cons r rs ih =>
    intro b hb o ho
    have hb1 := nextState_zero m h0m b hb
    rw [runNext, List.mem_cons] at ho
    rcases ho with ho | ho
    · rw [ho]
      cases hj : b.withJitter with
      | false => rw [Next_fst_of_not_jitter b r hj, hb1.2.1]
      | true =>
        rw [Next_fst_of_jitter b r hj, hb1.2.1]
        have hw : wrap64 (0 + 1) = 1 := by unfold wrap64; norm_num
        rw [hw]
        unfold randInt63n
        rw [if_neg (by norm_num)]
        rw [Int.emod_one]
    · refine ih (Next b r).2 ?_ o ho
      rw [Next_snd]
      exact hb1

/-! Jitter bounds. -/

theorem wrap64_ge (x : ℤ) : i64min ≤ wrap64 x := by
  unfold wrap64 i64min
  omega

theorem wrap64_le (x : ℤ) : wrap64 x ≤ i64max := by
  unfold wrap64 i64max
  omega

theorem durOfReal_ge (q : ℚ) : i64min ≤ durOfReal q := by
  unfold durOfReal
  split
  · exact le_rfl
  · next h =>
    push_neg at h
    exact h.1

/-- A returned jittered value is nonnegative and bounded by the unjittered
`current` stored by the same call. -/
theorem jitter_output_bound (b : State) (r v : ℤ) (hj : b.withJitter = true)
    (hc : i64min ≤ (nextState b).current)
    (hv : (Next b r).1 = some v) : 0 ≤ v ∧ v ≤ (nextState b).current := by
  rw [Next_fst_of_jitter b r hj] at hv
  unfold randInt63n at hv
  by_cases hn : wrap64 ((nextState b).current + 1) ≤ 0
  · rw [if_pos hn] at hv
    exact absurd hv (by simp)
  · rw [if_neg hn] at hv
    have hv' := Option.some.inj hv
    have hpos : 0 < wrap64 ((nextState b).current + 1) := not_le.mp hn
    have h0 : 0 ≤ r % wrap64 ((nextState b).current + 1) :=
      Int.emod_nonneg r (ne_of_gt hpos)
    have hlt : r % wrap64 ((nextState b).current + 1) <
        wrap64 ((nextState b).current + 1) := Int.emod_lt_of_pos r hpos
    refine ⟨hv' ▸ h0, ?_⟩
    by_cases hcc : (nextState b).current + 1 ≤ i64max
    · have he : wrap64 ((nextState b).current + 1) = (nextState b).current + 1 :=
        wrap64_eq_self _ (by omega) hcc
      omega
    · have hle := wrap64_le ((nextState b).current + 1)
      omega

/-- Lower-bound invariant: with `int64`-representable `initial` and `max`,
`current` never drops below `i64min`. -/
def Inv64 (i : ℤ) (f : ℚ) (m : ℤ) (b : State) : Prop :=
  b.initial = i ∧ b.factor = f ∧ b.max = m ∧ i64min ≤ b.current

theorem Inv64_step (i : ℤ) (f : ℚ) (m : ℤ) (hi : i64min ≤ i) (hm : i64min ≤ m)
    (b : State) (hb : Inv64 i f m b) : Inv64 i f m (nextState b) := by
  obtain ⟨hbi, hbf, hbm, hbc⟩ := hb
  refine ⟨by rw [nextState_initial, hbi], by rw [nextState_factor, hbf],
    by rw [nextState_max, hbm], ?_⟩
  cases hs : b.started with
  | false => rw [nextState_current_of_unstarted b hs, hbi]; exact hi
  | true =>
    rw [nextState_current_of_started b hs]
    have hd := durOfReal_ge ((b.current : ℚ) * b.factor)
    simp only [hbm]
    by_cases h3 : m < durOfReal ((b.current : ℚ) * b.factor)
    · rw [if_pos h3]; exact hm
    · rw [if_neg h3]; exact hd

theorem Inv64_iterate (i : ℤ) (f : ℚ) (m : ℤ) (hi : i64min ≤ i) (hm : i64min ≤ m)
    (b : State) (hb : Inv64 i f m b) (n : ℕ) : Inv64 i f m (nextState^[n] b) := by
  induction n with
  | zero => exact hb
  | succ n ih =>
    rw [Function.iterate_succ_apply']
    exact Inv64_step i f m hi hm _ ih

/-- The state transition commutes with overriding the jitter flag: the
flag influences only the returned value, never the stored state. -/
theorem nextState_setJitter (j : Bool) (b : State) :
    nextState { b with withJitter := j } = { nextState b with withJitter := j } := by
  cases hs : b.started <;> simp [nextState, hs]

theorem iterate_setJitter (j : Bool) (b : State) (n : ℕ) :
    nextState^[n] { b with withJitter := j } = { nextState^[n] b with withJitter := j } := by
  induction n with
  | zero => rfl
  | succ n ih =>
    rw [Function.iterate_succ_apply', Function.iterate_succ_apply', ih,
      nextState_setJitter]

end Backoff

/-! Claim C1. -/

/-- C2 counterexample: with `initial = -1ns` and jitter left enabled (the
default), the very first call does not return a draw from `[0, initial]` —
it panics inside `rand.Int63n` (modelled as `none`), because the jitter
bound `current + 1` is not positive. -/
theorem c2_counterexample :
    (Backoff.Next (Backoff.New (-1) 2 100 []) 0).1 = none := by
  norm_num [Backoff.Next, Backoff.nextState, Backoff.New, Backoff.durOfReal,
    Backoff.truncQ, Backoff.i64min, Backoff.i64max, Backoff.wrap64,
    Backoff.randInt63n]

/-- C2 (amended): for every initial, factor and max — including
initial > max — the first call after construction or after a reset stores
`current = initial` (no clamp to max) and marks the state started; with
jitter disabled it returns exactly `initial`; with jitter enabled it
returns a draw from `[0, initial]` provided `0 ≤ initial < 2^63 - 1`
(for negative initial the jittered call panics instead of returning). -/
theorem c2_first_call (i : ℤ) (f : ℚ) (m : ℤ) (j : Bool)
    (b0 b : Backoff.State) (r : ℤ)
    (hb : b = Backoff.New i f m [Backoff.WithJitter j] ∨ b = Backoff.Reset b0) :
    (Backoff.Next b r).2.current = b.initial ∧
    (Backoff.Next b r).2.started = true ∧
    (b.withJitter = false → (Backoff.Next b r).1 = some b.initial) ∧
    (b.withJitter = true → 0 ≤ b.initial → b.initial < Backoff.i64max →
      ∃ v, (Backoff.Next b r).1 = some v ∧ 0 ≤ v ∧ v ≤ b.initial) := by
  have hs : b.started = false := by
    rcases hb with h | h <;> subst h <;> rfl
  refine ⟨?_, ?_, ?_, ?_⟩
  · rw [Backoff.Next_snd, Backoff.nextState_current_of_unstarted b hs]
  · rw [Backoff.Next_snd]; exact Backoff.nextState_started b
  · intro hj
    rw [Backoff.Next_fst_of_not_jitter b r hj,
      Backoff.nextState_current_of_unstarted b hs]
  · intro hj h0 hmax
    rw [Backoff.Next_fst_of_jitter b r hj,
      Backoff.nextState_current_of_unstarted b hs]
    have hmin := Backoff.i64min_nonpos
    have hw : Backoff.wrap64 (b.initial + 1) = b.initial + 1 :=
      Backoff.wrap64_eq_self _ (by omega) (by omega)
    rw [hw]
    unfold Backoff.randInt63n
    rw [if_neg (by omega)]
    refine ⟨r % (b.initial + 1), rfl, Int.emod_nonneg r (by omega), ?_⟩
    have := Int.emod_lt_of_pos r (show 0 < b.initial + 1 by omega)
    omega

/-- C2 witness: initial 100ns with max 50ns and jitter disabled — the first
call returns 100ns and stores it, even though it exceeds max. -/
theorem c2_witness :
    (Backoff.Next (Backoff.New 100 2 50 [Backoff.WithJitter false]) 0).1 = some 100 ∧
    (Backoff.Next (Backoff.New 100 2 50 [Backoff.WithJitter false]) 0).2.current = 100 := by
  have h := c2_first_call 100 2 50 false
    (Backoff.New 100 2 50 [Backoff.WithJitter false])
    (Backoff.New 100 2 50 [Backoff.WithJitter false]) 0 (Or.inl rfl)
  exact ⟨h.2.2.1 rfl, h.1⟩

/-! Claim C3. -/

/-- C3 (confirmed): with jitter enabled and int64-representable parameters,
whenever the n-th call of a run returns a value, that value lies in
`[0, U_n]`, where `U_n` is the unjittered value the n-th call would have
produced with jitter disabled under the same parameters and call
sequence. -/
theorem c3_jitter_within_unjittered_bound (i : ℤ) (f : ℚ) (m : ℤ)
    (rs : List ℤ) (n : ℕ) (v : ℤ)
    (hi : Backoff.i64min ≤ i) (hm : Backoff.i64min ≤ m)
    (hv : (Backoff.runNext (Backoff.New i f m [Backoff.WithJitter true]) rs)[n]? =
      some (some v)) :
    0 ≤ v ∧ v ≤ Backoff.callSeq i f m n := by
  rw [Backoff.runNext_getElem] at hv
  obtain ⟨r, hr, hfr⟩ := Option.map_eq_some'.mp hv
  have hj : (Backoff.nextState^[n] (Backoff.New i f m [Backoff.WithJitter true])).withJitter = true := by
    rw [Backoff.iterate_withJitter]; rfl
  have hinv : Backoff.Inv64 i f m
      (Backoff.nextState^[n + 1] (Backoff.New i f m [Backoff.WithJitter true])) :=
    Backoff.Inv64_iterate i f m hi hm _ ⟨rfl, rfl, rfl, Backoff.i64min_nonpos⟩ (n + 1)
  have hc : Backoff.i64min ≤
      (Backoff.nextState (Backoff.nextState^[n] (Backoff.New i f m [Backoff.WithJitter true]))).current := by
    rw [← Function.iterate_succ_apply' Backoff.nextState n
      (Backoff.New i f m [Backoff.WithJitter true])]
    exact hinv.2.2.2
  obtain ⟨h0, hbd⟩ := Backoff.jitter_output_bound _ r v hj hc hfr
  refine ⟨h0, le_trans hbd (le_of_eq ?_)⟩
  rw [← Function.iterate_succ_apply' Backoff.nextState n
    (Backoff.New i f m [Backoff.WithJitter true])]
  have hset : (Backoff.New i f m [Backoff.WithJitter true] : Backoff.State) =
      { Backoff.New i f m [Backoff.WithJitter false] with withJitter := true } := rfl
  rw [hset, Backoff.iterate_setJitter]
  rfl

/-- C3 witness: initial 100ns, factor 2, max 1000ns; with oracle draws
`[0, 50]` the second call returns 50ns, which lies within `[0, 200ns]`. -/
theorem c3_witness :
    (0 : ℤ) ≤ 50 ∧ (50 : ℤ) ≤ Backoff.callSeq 100 2 1000 1 :=
  c3_jitter_within_unjittered_bound 100 2 1000 [0, 50] 1 50
    (by norm_num [Backoff.i64min]) (by norm_num [Backoff.i64min])
    (by norm_num [Backoff.runNext, Backoff.Next, Backoff.nextState, Backoff.New,
      Backoff.WithJitter, Backoff.durOfReal, Backoff.truncQ, Backoff.i64min,
      Backoff.i64max, Backoff.wrap64, Backoff.randInt63n])

/-! Claim C4. -/

/-- C5 (confirmed): for every state, however many calls preceded, a `Reset`
followed by `Next` returns exactly what the first call of a freshly
constructed instance with the same parameters returns, for the same random
draw — and this holds every time, since the state is universally
quantified. -/
theorem c5_reset_restarts (b : Backoff.State) (r : ℤ) :
    (Backoff.Next (Backoff.Reset b) r).1 =
      (Backoff.Next (Backoff.New b.initial b.factor b.max
        [Backoff.WithJitter b.withJitter]) r).1 := rfl

/-! Claim C6. -/

/-- C6 counterexample: after two calls (initial 100ns, factor 2, jitter
disabled) `current` is 200ns; `Reset` leaves it at 200ns, not zero — the
claim that reset zeroes `current` is false. -/
theorem c6_counterexample :
    (Backoff.Reset (Backoff.Next
      ((Backoff.Next (Backoff.New 100 2 1000 [Backoff.WithJitter false]) 0).2)
      0).2).current = 200 ∧ ¬ ((200 : ℤ) = 0) := by
  constructor
  · norm_num [Backoff.Reset, Backoff.Next, Backoff.nextState, Backoff.New,
      Backoff.WithJitter, Backoff.durOfReal, Backoff.truncQ, Backoff.i64min,
      Backoff.i64max, Backoff.wrap64, Backoff.randInt63n]
  · norm_num

/-- C6 (amended): `Reset` sets the started flag (`initialized`) to false
and leaves every other field — including the stale `current` — unchanged;
in particular it does not zero `current`. -/
theorem c6_reset_frame (b : Backoff.State) :
    (Backoff.Reset b).started = false ∧
    (Backoff.Reset b).current = b.current ∧
    (Backoff.Reset b).initial = b.initial ∧
    (Backoff.Reset b).factor = b.factor ∧
    (Backoff.Reset b).max = b.max ∧
    (Backoff.Reset b).withJitter = b.withJitter :=
  ⟨rfl, rfl, rfl, rfl, rfl, rfl⟩

/-! Claim C7. -/

/-- C7: the growth computation does not saturate. With initial 1ns, factor
2^64 (exactly representable as a float64) and max 1s, the second call's
product overflows the int64 range; the conversion yields the indefinite
value -2^63 (amd64 semantics), the `next > max` clamp does not fire on a
negative value, and the call stores and returns -2^63 ns instead of
saturating at max. -/
theorem c7_overflow_not_saturated :
    Backoff.runNext (Backoff.New 1 ((2 : ℚ) ^ 64) (10 ^ 9)
        [Backoff.WithJitter false]) [0, 0] =
      [some 1, some (-(2 ^ 63))] ∧ ¬ ((0 : ℤ) ≤ -(2 ^ 63)) := by
  constructor
  · norm_num [Backoff.runNext, Backoff.Next, Backoff.nextState, Backoff.New,
      Backoff.WithJitter, Backoff.durOfReal, Backoff.truncQ, Backoff.i64min,
      Backoff.i64max, Backoff.wrap64, Backoff.randInt63n]
  · norm_num

/-! Claim C8. -/

/-- C8 counterexample: with initial 0 but a negative max (-5ns), the second
call clamps the zero candidate to max and returns -5ns, not 0 — so the
claim fails for every max. -/
theorem c8_counterexample :
    Backoff.runNext (Backoff.New 0 2 (-5) [Backoff.WithJitter false]) [0, 0] =
      [some 0, some (-5)] ∧ ¬ ((-5 : ℤ) = 0) := by
  constructor
  · norm_num [Backoff.runNext, Backoff.Next, Backoff.nextState, Backoff.New,
      Backoff.WithJitter, Backoff.durOfReal, Backoff.truncQ, Backoff.i64min,
      Backoff.i64max, Backoff.wrap64, Backoff.randInt63n]
  · norm_num

/-- C8 (amended): if initial = 0 and max ≥ 0, then for every factor, with
or without jitter, every value returned by every call of every run is
exactly 0: zero is a fixed point of the growth step, and the jitter draw
over `[0, 0]` is 0. -/
theorem c8_zero_fixed_point (f : ℚ) (m : ℤ) (j : Bool) (rs : List ℤ)
    (h0m : 0 ≤ m) (o : Option ℤ)
    (ho : o ∈ Backoff.runNext (Backoff.New 0 f m [Backoff.WithJitter j]) rs) :
    o = some 0 :=
  Backoff.runNext_zero m h0m rs _ ⟨rfl, rfl, rfl⟩ o ho

/-- C8 witness: initial 0, factor 2, max 100ns, jitter on, oracle 3: the
single call returns 0. -/
theorem c8_witness : (some (0 : ℤ) : Option ℤ) = some 0 :=
  c8_zero_fixed_point 2 100 true [3] (by norm_num) (some 0)
    (by norm_num [Backoff.runNext, Backoff.Next, Backoff.nextState, Backoff.New,
      Backoff.WithJitter, Backoff.durOfReal, Backoff.truncQ, Backoff.i64min,
      Backoff.i64max, Backoff.wrap64, Backoff.randInt63n])

/-! Claim C10. -/

/-- C10 (confirmed): although `Reset` leaves the stale `current` in place,
the whole sequence of outputs after a `Reset` — from any state whatsoever,
in particular any state reachable by `Next` calls — is identical to the
sequence a freshly constructed calculator with the same parameters and the
same random draws produces: the stale `current` never influences any
output. -/
theorem c10_reset_equiv_fresh (b : Backoff.State) (rs : List ℤ) :
    Backoff.runNext (Backoff.Reset b) rs =
      Backoff.runNext (Backoff.New b.initial b.factor b.max
        [Backoff.WithJitter b.withJitter]) rs := by
  cases rs with
  | nil => rfl
  | cons r rs => rfl

